import Mathlib

/-!
Shallow embedding of `src/activation_functions_from_scratch.py`.

The file defines, over the real numbers, the eight activation classes
(Sigmoid, Softmax, TanH, ReLU, LeakyReLU, ELU, SELU, SoftPlus), each with
its forward operation (`call`, the Python `__call__`) and its `gradient`,
translated directly from the numpy expressions in the source.  Elementwise
numpy operations on one-dimensional arrays are modelled as `List.map`
over `List ℝ`; the Python builtin `sum` over a two-dimensional array
(which iterates over rows and adds them elementwise, i.e. reduces along
axis 0) is modelled by `pySum`.

The expression on line 113 of the source,
`1/(1+((np.exp)**-x))`, applies the operator `**` to the numpy ufunc
object `np.exp` itself (the function is never called), which raises a
`TypeError` in Python for every numeric input.  To capture this the
SoftPlus gradient is embedded over a small Python value model `PyVal`
(a number, an ndarray, or the `np.exp` ufunc object) with fallible
operators returning `Except String PyVal`.
-/

namespace Activation

/-- `Sigmoid.__call__`: `1 / (1 + np.exp(-x))`. -/
noncomputable def Sigmoid.call (x : ℝ) : ℝ :=
  1 / (1 + Real.exp (-x))

/-- `Sigmoid.gradient`: `self.__call__(x) * (1 - self.__call__(x))`. -/
noncomputable def Sigmoid.gradient (x : ℝ) : ℝ :=
  Sigmoid.call x * (1 - Sigmoid.call x)

/-- `Softmax.__call__` on a one-dimensional array:
`np.exp(x) / sum(np.exp(x))`; the builtin `sum` of a 1-D array is the sum
of its elements, and the division broadcasts elementwise. -/
noncomputable def Softmax.call (xs : List ℝ) : List ℝ :=
  (xs.map Real.exp).map (fun e => e / (xs.map Real.exp).sum)

/-- `Softmax.gradient`: `p = self.__call__(x); p * (1 - p)` elementwise. -/
noncomputable def Softmax.gradient (xs : List ℝ) : List ℝ :=
  (Softmax.call xs).map (fun p => p * (1 - p))

/-- `TanH.__call__`: `2 / (1 + np.exp(-2*x)) - 1`. -/
noncomputable def TanH.call (x : ℝ) : ℝ :=
  2 / (1 + Real.exp (-2 * x)) - 1

/-- `TanH.gradient`: `1 - np.power(self.__call__(x), 2)`. -/
noncomputable def TanH.gradient (x : ℝ) : ℝ :=
  1 - (TanH.call x) ^ 2

/-- `ReLU.__call__`: `np.where(x >= 0, x, 0)`. -/
noncomputable def ReLU.call (x : ℝ) : ℝ :=
  if x ≥ 0 then x else 0

/-- `ReLU.gradient`: `np.where(x >= 0, 1, 0)`. -/
noncomputable def ReLU.gradient (x : ℝ) : ℝ :=
  if x ≥ 0 then 1 else 0

/-- Default of the `alpha` parameter of `LeakyReLU.__init__`. -/
def LeakyReLU.defaultAlpha : ℝ := 0.2

/-- `LeakyReLU.__call__`: `np.where(x >= 0, x, self.alpha * x)`. -/
noncomputable def LeakyReLU.call (alpha x : ℝ) : ℝ :=
  if x ≥ 0 then x else alpha * x

/-- `LeakyReLU.gradient`: `np.where(x >= 0, 1, self.alpha)`. -/
noncomputable def LeakyReLU.gradient (alpha x : ℝ) : ℝ :=
  if x ≥ 0 then 1 else alpha

/-- Default of the `alpha` parameter of `ELU.__init__`. -/
def ELU.defaultAlpha : ℝ := 0.1

/-- `ELU.__call__`: `np.where(x >= 0.0, x, self.alpha * (np.exp(x) - 1))`. -/
noncomputable def ELU.call (alpha x : ℝ) : ℝ :=
  if x ≥ 0 then x else alpha * (Real.exp x - 1)

/-- `ELU.gradient`: `np.where(x >= 0.0, 1, self.__call__(x) + self.alpha)`. -/
noncomputable def ELU.gradient (alpha x : ℝ) : ℝ :=
  if x ≥ 0 then 1 else ELU.call alpha x + alpha

/-- The fixed `self.alpha` set in `SELU.__init__`. -/
def SELU.alpha : ℝ := 1.6732632423543772848170429916717

/-- The fixed `self.scale` set in `SELU.__init__`. -/
def SELU.scale : ℝ := 1.0507009873554804934193349852946

/-- `SELU.__call__`: `self.scale * np.where(x >= 0.0, x, self.alpha*(np.exp(x)-1))`. -/
noncomputable def SELU.call (x : ℝ) : ℝ :=
  SELU.scale * (if x ≥ 0 then x else SELU.alpha * (Real.exp x - 1))

/-- `SELU.gradient`: `self.scale * np.where(x >= 0.0, 1, self.alpha * np.exp(x))`. -/
noncomputable def SELU.gradient (x : ℝ) : ℝ :=
  SELU.scale * (if x ≥ 0 then 1 else SELU.alpha * Real.exp x)

/-- `SoftPlus.__call__`: `np.log1p(np.exp(x))`, i.e. `log(1 + exp(x))`. -/
noncomputable def SoftPlus.call (x : ℝ) : ℝ :=
  Real.log (1 + Real.exp x)

/-- A Python value as it occurs while evaluating line 113 of the source:
a numeric scalar, a one-dimensional ndarray, or the `np.exp` ufunc
object itself. -/
inductive PyVal where
  | num (r : ℝ)
  | arr (xs : List ℝ)
  | ufuncExp

/-- The error produced when Python applies an arithmetic operator to the
ufunc object `np.exp`. -/
def ufuncTypeError : String := "TypeError: unsupported operand type: numpy.ufunc"

/-- Python unary minus on a value: elementwise on ndarrays, a `TypeError`
on the ufunc object. -/
noncomputable def pyNeg : PyVal → Except String PyVal
  | .num r => .ok (.num (-r))
  | .arr xs => .ok (.arr (xs.map (fun a => -a)))
  | .ufuncExp => .error ufuncTypeError

/-- Python `**` with numpy broadcasting: numeric bases and exponents
compute a power, any ufunc operand raises a `TypeError` (for an ndarray
operand the loop over the object array raises it elementwise). -/
noncomputable def pyPow : PyVal → PyVal → Except String PyVal
  | .num r, .num s => .ok (.num (Real.rpow r s))
  | .num r, .arr ys => .ok (.arr (ys.map (fun y => Real.rpow r y)))
  | .arr xs, .num s => .ok (.arr (xs.map (fun a => Real.rpow a s)))
  | .arr xs, .arr ys => .ok (.arr (List.zipWith Real.rpow xs ys))
  | .ufuncExp, _ => .error ufuncTypeError
  | _, .ufuncExp => .error ufuncTypeError

/-- Python `+` with numpy broadcasting of a scalar over an ndarray. -/
noncomputable def pyAdd : PyVal → PyVal → Except String PyVal
  | .num r, .num s => .ok (.num (r + s))
  | .num r, .arr ys => .ok (.arr (ys.map (fun y => r + y)))
  | .arr xs, .num s => .ok (.arr (xs.map (fun a => a + s)))
  | .arr xs, .arr ys => .ok (.arr (List.zipWith (· + ·) xs ys))
  | .ufuncExp, _ => .error ufuncTypeError
  | _, .ufuncExp => .error ufuncTypeError

/-- Python `/` with numpy broadcasting of a scalar over an ndarray. -/
noncomputable def pyDiv : PyVal → PyVal → Except String PyVal
  | .num r, .num s => .ok (.num (r / s))
  | .num r, .arr ys => .ok (.arr (ys.map (fun y => r / y)))
  | .arr xs, .num s => .ok (.arr (xs.map (fun a => a / s)))
  | .arr xs, .arr ys => .ok (.arr (List.zipWith (· / ·) xs ys))
  | .ufuncExp, _ => .error ufuncTypeError
  | _, .ufuncExp => .error ufuncTypeError

/-- `SoftPlus.gradient`, line 113 of the source, exactly as written:
`return 1/(1+((np.exp)**-x))` — note `np.exp` is not applied to anything,
so the base of `**` is the ufunc object itself. -/
noncomputable def SoftPlus.gradient (x : PyVal) : Except String PyVal := do
  let nx ← pyNeg x
  let p ← pyPow PyVal.ufuncExp nx
  let d ← pyAdd (PyVal.num 1) p
  pyDiv (PyVal.num 1) d

/-- The mathematically intended SoftPlus gradient named by the spec:
the sigmoid function `1 / (1 + exp(-x))`. -/
noncomputable def SoftPlus.gradientSpec (x : ℝ) : ℝ :=
  1 / (1 + Real.exp (-x))

/-- The Python builtin `sum` applied to a two-dimensional ndarray:
`sum` iterates over the rows (`0 + row0 + row1 + ...`; the initial int `0`
broadcasts away against the first row), adding rows elementwise, hence it
reduces along axis 0.  The source reaches this only with at least one row;
the `[]` case is the unreached degenerate branch. -/
def pySum : List (List ℝ) → List ℝ
  | [] => []
  | r :: rs => rs.foldl (fun acc row => List.zipWith (· + ·) acc row) r

/-- `Softmax.__call__` on a two-dimensional array:
`np.exp(x) / sum(np.exp(x))` with the builtin `sum` reducing along
axis 0 and the division broadcasting each row against the axis-0 sums. -/
noncomputable def Softmax.call2d (xss : List (List ℝ)) : List (List ℝ) :=
  (xss.map (fun row => row.map Real.exp)).map
    (fun row => List.zipWith (· / ·) row (pySum (xss.map (fun r => r.map Real.exp))))

/-- `Sigmoid.__call__` over a one-dimensional ndarray (numpy elementwise). -/
noncomputable def Sigmoid.callArr (xs : List ℝ) : List ℝ := xs.map Sigmoid.call

/-- `Sigmoid.gradient` over a one-dimensional ndarray. -/
noncomputable def Sigmoid.gradientArr (xs : List ℝ) : List ℝ := xs.map Sigmoid.gradient

/-- `TanH.__call__` over a one-dimensional ndarray. -/
noncomputable def TanH.callArr (xs : List ℝ) : List ℝ := xs.map TanH.call

/-- `TanH.gradient` over a one-dimensional ndarray. -/
noncomputable def TanH.gradientArr (xs : List ℝ) : List ℝ := xs.map TanH.gradient

/-- `ReLU.__call__` over a one-dimensional ndarray (`np.where` is elementwise). -/
noncomputable def ReLU.callArr (xs : List ℝ) : List ℝ := xs.map ReLU.call

/-- `ReLU.gradient` over a one-dimensional ndarray. -/
noncomputable def ReLU.gradientArr (xs : List ℝ) : List ℝ := xs.map ReLU.gradient

/-- `LeakyReLU.__call__` over a one-dimensional ndarray. -/
noncomputable def LeakyReLU.callArr (alpha : ℝ) (xs : List ℝ) : List ℝ :=
  xs.map (LeakyReLU.call alpha)

/-- `LeakyReLU.gradient` over a one-dimensional ndarray. -/
noncomputable def LeakyReLU.gradientArr (alpha : ℝ) (xs : List ℝ) : List ℝ :=
  xs.map (LeakyReLU.gradient alpha)

/-- `ELU.__call__` over a one-dimensional ndarray. -/
noncomputable def ELU.callArr (alpha : ℝ) (xs : List ℝ) : List ℝ :=
  xs.map (ELU.call alpha)

/-- `ELU.gradient` over a one-dimensional ndarray. -/
noncomputable def ELU.gradientArr (alpha : ℝ) (xs : List ℝ) : List ℝ :=
  xs.map (ELU.gradient alpha)

/-- `SELU.__call__` over a one-dimensional ndarray. -/
noncomputable def SELU.callArr (xs : List ℝ) : List ℝ := xs.map SELU.call

/-- `SELU.gradient` over a one-dimensional ndarray. -/
noncomputable def SELU.gradientArr (xs : List ℝ) : List ℝ := xs.map SELU.gradient

/-- `SoftPlus.__call__` over a one-dimensional ndarray. -/
noncomputable def SoftPlus.callArr (xs : List ℝ) : List ℝ := xs.map SoftPlus.call

end Activation

open Activation

/-- Summing an elementwise division of a list by a constant divides the sum. -/
theorem list_sum_map_div (l : List ℝ) (c : ℝ) :
    (l.map (fun a => a / c)).sum = l.sum / c := by
  induction l with
  | nil => simp
  | cons x t ih => simp [ih, add_div]

/-- Summing a rowwise quantity divided by a constant divides the sum. -/
theorem list_sum_map_div_fn (f : List ℝ → ℝ) (l : List (List ℝ)) (c : ℝ) :
    (l.map (fun r => f r / c)).sum = (l.map f).sum / c := by
  induction l with
  | nil => simp
  | cons x t ih => simp [ih, add_div]

/-- `getD` with default `0` through `map` at an in-bounds index. -/
theorem list_getD_map_of_lt (f : ℝ → ℝ) (l : List ℝ) (i : ℕ) (h : i < l.length) :
    (l.map f).getD i 0 = f (l.getD i 0) := by
  induction l generalizing i with
  | nil => simp at h
  | cons x t ih =>
    cases i with
    | zero => rfl
    | succ n =>
      simp only [List.map_cons, List.getD_cons_succ]
      exact ih n (Nat.lt_of_succ_lt_succ h)

/-- `getD` with default `0` through a binary `zipWith` at an in-bounds index. -/
theorem list_zipWith_getD_of_lt (f : ℝ → ℝ → ℝ) (a b : List ℝ) (j : ℕ)
    (hja : j < a.length) (hjb : j < b.length) :
    (List.zipWith f a b).getD j 0 = f (a.getD j 0) (b.getD j 0) := by
  induction a generalizing b j with
  | nil => simp at hja
  | cons x t ih =>
    cases b with
    | nil => simp at hjb
    | cons y s =>
      cases j with
      | zero => rfl
      | succ n =>
        simp only [List.zipWith_cons_cons, List.getD_cons_succ]
        exact ih s n (Nat.lt_of_succ_lt_succ hja) (Nat.lt_of_succ_lt_succ hjb)

/-- The sum of the exponentials of a non-empty list is positive. -/
theorem exp_sum_pos (xs : List ℝ) (h : xs ≠ []) : 0 < (xs.map Real.exp).sum :=
  List.sum_pos _
    (fun a ha => by
      obtain ⟨x, _, rfl⟩ := List.mem_map.mp ha
      exact Real.exp_pos x)
    (fun hm => h (by simpa using hm))

/-- Unrolling the elementwise fold inside `pySum`: at an in-bounds column
index `j` the fold accumulates the column sum, and shapes are preserved. -/
theorem foldl_zipWith_add_getD (m j : ℕ) (hj : j < m) :
    ∀ (rows : List (List ℝ)) (acc : List ℝ), (∀ r ∈ rows, r.length = m) →
      acc.length = m →
      ((rows.foldl (fun acc row => List.zipWith (· + ·) acc row) acc).getD j 0
          = acc.getD j 0 + (rows.map (fun r => r.getD j 0)).sum)
        ∧ (rows.foldl (fun acc row => List.zipWith (· + ·) acc row) acc).length = m := by
  intro rows
  induction rows with
  | nil =>
    intro acc _ hacc
    exact ⟨by simp, hacc⟩
  | cons r rs ih =>
    intro acc hrows hacc
    have hr : r.length = m := hrows r (by simp)
    have hlen : (List.zipWith (· + ·) acc r).length = m := by
      rw [List.length_zipWith, hacc, hr, Nat.min_self]
    have h := ih (List.zipWith (· + ·) acc r)
      (fun r' h' => hrows r' (by simp [h'])) hlen
    refine ⟨?_, by simpa using h.2⟩
    rw [List.foldl_cons, h.1,
      list_zipWith_getD_of_lt (· + ·) acc r j (by rw [hacc]; exact hj)
        (by rw [hr]; exact hj)]
    simp [add_assoc]

/-- The Python builtin `sum` over a non-empty well-shaped list of rows:
its entry at an in-bounds index `j` is the sum of column `j`, and it has
the common row length. -/
theorem pySum_getD (m j : ℕ) (hj : j < m) (rows : List (List ℝ)) (hne : rows ≠ [])
    (hrows : ∀ r ∈ rows, r.length = m) :
    (pySum rows).getD j 0 = (rows.map (fun r => r.getD j 0)).sum ∧
      (pySum rows).length = m := by
  match rows with
  | [] => exact absurd rfl hne
  | r :: rs =>
    have hr : r.length = m := hrows r (by simp)
    have h := foldl_zipWith_add_getD m j hj rs r
      (fun r' h' => hrows r' (by simp [h'])) hr
    exact ⟨by rw [pySum, h.1]; simp, by rw [pySum]; exact h.2⟩

/-- Claim C1: the claim says `SoftPlus.gradient(x) = 1 / (1 + exp(-x))`
(the sigmoid).  On the code as written this fails at every input: line 113
raises a `TypeError` because `**` is applied to the ufunc object `np.exp`
itself.  This theorem evaluates the embedded code at the failing input
`x = 0`, where the claim would demand the sigmoid value `1/2`. -/
theorem softplus_gradient_raises_at_zero :
    SoftPlus.gradient (PyVal.num 0) = Except.error ufuncTypeError ∧
    SoftPlus.gradientSpec 0 = 1 / 2 := by
  constructor
  · rfl
  · norm_num [SoftPlus.gradientSpec]

/-- Claim C2: the claim says `apply` and `gradient` of all eight transforms
never raise on finite numeric input.  `SoftPlus.gradient` raises a
`TypeError` for every input, scalar or array: the embedded line 113 returns
an error for every numeric `PyVal`. -/
theorem softplus_gradient_raises_everywhere :
    (∀ x : ℝ, SoftPlus.gradient (PyVal.num x) = Except.error ufuncTypeError) ∧
    (∀ xs : List ℝ, SoftPlus.gradient (PyVal.arr xs) = Except.error ufuncTypeError) :=
  ⟨fun _ => rfl, fun _ => rfl⟩

/-- Claim C5: `ReLU.call x = x` and `ReLU.gradient x = 1` for `x ≥ 0`,
`ReLU.call x = 0` and `ReLU.gradient x = 0` for `x < 0`, with the
inclusive branch at zero: `ReLU.call 0 = 0` and `ReLU.gradient 0 = 1`. -/
theorem relu_spec (x : ℝ) :
    (x ≥ 0 → ReLU.call x = x ∧ ReLU.gradient x = 1) ∧
    (x < 0 → ReLU.call x = 0 ∧ ReLU.gradient x = 0) ∧
    ReLU.call 0 = 0 ∧ ReLU.gradient 0 = 1 := by
  simp only [ReLU.call, ReLU.gradient]
  refine ⟨fun h => ⟨if_pos h, if_pos h⟩,
    fun h => ⟨if_neg (not_le.mpr h), if_neg (not_le.mpr h)⟩,
    if_pos le_rfl, if_pos le_rfl⟩

/-- Witness for `relu_spec` at the concrete inputs `1` and `-1`. -/
theorem relu_spec_witness :
    ((1:ℝ) ≥ 0 ∧ ReLU.call 1 = 1) ∧ ((-1:ℝ) < 0 ∧ ReLU.call (-1) = 0) :=
  ⟨⟨by norm_num, ((relu_spec 1).1 (by norm_num)).1⟩,
   ⟨by norm_num, ((relu_spec (-1)).2.1 (by norm_num)).1⟩⟩

/-- Claim C6: the default `alpha` of `ELU` is `0.1`; for every `alpha`:
`ELU.call alpha x = x` and `ELU.gradient alpha x = 1` when `x ≥ 0`,
`ELU.call alpha x = alpha * (exp x - 1)` and
`ELU.gradient alpha x = ELU.call alpha x + alpha` when `x < 0`;
and `ELU.call alpha 0 = 0`. -/
theorem elu_spec (alpha x : ℝ) :
    ELU.defaultAlpha = 0.1 ∧
    (x ≥ 0 → ELU.call alpha x = x ∧ ELU.gradient alpha x = 1) ∧
    (x < 0 → ELU.call alpha x = alpha * (Real.exp x - 1) ∧
      ELU.gradient alpha x = ELU.call alpha x + alpha) ∧
    ELU.call alpha 0 = 0 := by
  refine ⟨rfl, fun h => ⟨if_pos h, if_pos h⟩, fun h => ⟨if_neg (not_le.mpr h), ?_⟩, ?_⟩
  · simp only [ELU.gradient, if_neg (not_le.mpr h)]
  · simp only [ELU.call, if_pos (le_refl (0:ℝ))]

/-- Witness for `elu_spec` with `alpha = 0.1` at the inputs `1` and `-1`. -/
theorem elu_spec_witness :
    ((1:ℝ) ≥ 0 ∧ ELU.call 0.1 1 = 1) ∧
    ((-1:ℝ) < 0 ∧ ELU.call 0.1 (-1) = 0.1 * (Real.exp (-1) - 1)) ∧
    ELU.call 0.1 0 = 0 :=
  ⟨⟨by norm_num, ((elu_spec 0.1 1).2.1 (by norm_num)).1⟩,
   ⟨by norm_num, ((elu_spec 0.1 (-1)).2.2.1 (by norm_num)).1⟩,
   (elu_spec 0.1 0).2.2.2⟩

/-- Claim C7: for every real `x`, `Sigmoid.call x` lies strictly between
`0` and `1`, and `TanH.call x` lies strictly between `-1` and `1`. -/
theorem sigmoid_tanh_range (x : ℝ) :
    (0 < Sigmoid.call x ∧ Sigmoid.call x < 1) ∧
    (-1 < TanH.call x ∧ TanH.call x < 1) := by
  have he : 0 < Real.exp (-x) := Real.exp_pos _
  have he2 : 0 < Real.exp (-2 * x) := Real.exp_pos _
  have hd : (1:ℝ) < 1 + Real.exp (-x) := by linarith
  have hd2 : (1:ℝ) < 1 + Real.exp (-2 * x) := by linarith
  refine ⟨⟨?_, ?_⟩, ?_, ?_⟩
  · simp only [Sigmoid.call]
    positivity
  · simp only [Sigmoid.call]
    rw [div_lt_one (by linarith)]
    exact hd
  · simp only [TanH.call]
    have h2d : 0 < 2 / (1 + Real.exp (-2 * x)) := by positivity
    linarith
  · simp only [TanH.call]
    have h2d : 2 / (1 + Real.exp (-2 * x)) < 2 := by
      rw [div_lt_iff₀ (by linarith)]
      linarith
    linarith

/-- Claim C10: `SELU.call` is exactly `SELU.scale` times `ELU.call` at
`alpha = SELU.alpha`; for `x < 0` the ELU gradient collapses to
`alpha * exp x`; and `SELU.gradient` is `SELU.scale` times the ELU
gradient at that same `alpha` for every `x`. -/
theorem selu_scaled_elu (x : ℝ) :
    SELU.call x = SELU.scale * ELU.call SELU.alpha x ∧
    (x < 0 → ELU.gradient SELU.alpha x = SELU.alpha * Real.exp x) ∧
    SELU.gradient x = SELU.scale * ELU.gradient SELU.alpha x := by
  have hneg : ∀ a : ℝ, x < 0 → ELU.gradient a x = a * Real.exp x := by
    intro a h
    simp only [ELU.gradient, ELU.call, if_neg (not_le.mpr h)]
    ring
  refine ⟨?_, fun h => hneg _ h, ?_⟩
  · simp only [SELU.call, ELU.call]
  · by_cases h : x ≥ 0
    · simp only [SELU.gradient, ELU.gradient, if_pos h]
    · push_neg at h
      rw [hneg _ h]
      simp only [SELU.gradient, if_neg (not_le.mpr h)]

/-- Witness for `selu_scaled_elu` at the concrete input `-1`. -/
theorem selu_scaled_elu_witness :
    ((-1:ℝ) < 0) ∧ ELU.gradient SELU.alpha (-1) = SELU.alpha * Real.exp (-1) :=
  ⟨by norm_num, (selu_scaled_elu (-1)).2.1 (by norm_num)⟩

/-- Claim C3: for every non-empty list, `Softmax.call` sums to `1`, and it
preserves the input ordering: a smaller or equal input entry maps to a
smaller or equal output probability (so the largest input gets the largest
output probability). -/
theorem softmax_sum_one_and_monotone (xs : List ℝ) (hne : xs ≠ []) :
    (Softmax.call xs).sum = 1 ∧
    ∀ i j : ℕ, i < xs.length → j < xs.length →
      xs.getD i 0 ≤ xs.getD j 0 →
      (Softmax.call xs).getD i 0 ≤ (Softmax.call xs).getD j 0 := by
  have hS : 0 < (xs.map Real.exp).sum := exp_sum_pos xs hne
  constructor
  · simp only [Softmax.call]
    rw [list_sum_map_div]
    exact div_self (ne_of_gt hS)
  · intro i j hi hj hij
    simp only [Softmax.call]
    have hi' : i < (xs.map Real.exp).length := by simpa using hi
    have hj' : j < (xs.map Real.exp).length := by simpa using hj
    rw [list_getD_map_of_lt _ _ i hi', list_getD_map_of_lt _ _ j hj',
      list_getD_map_of_lt Real.exp xs i hi, list_getD_map_of_lt Real.exp xs j hj]
    gcongr

/-- Witness for `softmax_sum_one_and_monotone` at the input `[1, 2, 3]`,
indices `0` and `2`. -/
theorem softmax_sum_one_and_monotone_witness :
    ([1, 2, 3] : List ℝ) ≠ [] ∧
    (Softmax.call [1, 2, 3]).sum = 1 ∧
    ((0:ℕ) < ([1, 2, 3] : List ℝ).length ∧ (2:ℕ) < ([1, 2, 3] : List ℝ).length ∧
      ([1, 2, 3] : List ℝ).getD 0 0 ≤ ([1, 2, 3] : List ℝ).getD 2 0) ∧
    (Softmax.call [1, 2, 3]).getD 0 0 ≤ (Softmax.call [1, 2, 3]).getD 2 0 := by
  have h := softmax_sum_one_and_monotone ([1, 2, 3] : List ℝ) (by simp)
  exact ⟨by simp, h.1, ⟨by norm_num, by norm_num, by norm_num⟩,
    h.2 0 2 (by norm_num) (by norm_num) (by norm_num)⟩

/-- Claim C4: `Softmax.gradient` agrees elementwise with `p * (1 - p)`
where `p = Softmax.call` — the simplified elementwise formula. -/
theorem softmax_gradient_elementwise (xs : List ℝ) (i : ℕ) (h : i < xs.length) :
    (Softmax.gradient xs).getD i 0 =
      (Softmax.call xs).getD i 0 * (1 - (Softmax.call xs).getD i 0) := by
  have hlen : i < (Softmax.call xs).length := by simpa [Softmax.call] using h
  simp only [Softmax.gradient]
  exact list_getD_map_of_lt (fun p => p * (1 - p)) (Softmax.call xs) i hlen

/-- Witness for `softmax_gradient_elementwise` at the input `[0, 1]`,
index `0`. -/
theorem softmax_gradient_elementwise_witness :
    (0:ℕ) < ([0, 1] : List ℝ).length ∧
    (Softmax.gradient [0, 1]).getD 0 0 =
      (Softmax.call [0, 1]).getD 0 0 * (1 - (Softmax.call [0, 1]).getD 0 0) :=
  ⟨by norm_num, softmax_gradient_elementwise ([0, 1] : List ℝ) 0 (by norm_num)⟩

/-- Claim C8: the claim says all eight transforms preserve the input shape
for both `apply` and `gradient`.  Fifteen of the sixteen operations do
(they are elementwise maps, and Softmax reduces only its denominator), but
`SoftPlus.gradient` never returns at all: it raises a `TypeError` on every
array, shown here at the failing input `np.array([0.0])`. -/
theorem shape_preservation_except_softplus_gradient (xs : List ℝ) (alpha : ℝ) :
    (Sigmoid.callArr xs).length = xs.length ∧
    (Sigmoid.gradientArr xs).length = xs.length ∧
    (Softmax.call xs).length = xs.length ∧
    (Softmax.gradient xs).length = xs.length ∧
    (TanH.callArr xs).length = xs.length ∧
    (TanH.gradientArr xs).length = xs.length ∧
    (ReLU.callArr xs).length = xs.length ∧
    (ReLU.gradientArr xs).length = xs.length ∧
    (LeakyReLU.callArr alpha xs).length = xs.length ∧
    (LeakyReLU.gradientArr alpha xs).length = xs.length ∧
    (ELU.callArr alpha xs).length = xs.length ∧
    (ELU.gradientArr alpha xs).length = xs.length ∧
    (SELU.callArr xs).length = xs.length ∧
    (SELU.gradientArr xs).length = xs.length ∧
    (SoftPlus.callArr xs).length = xs.length ∧
    SoftPlus.gradient (PyVal.arr [0]) = Except.error ufuncTypeError := by
  refine ⟨?_, ?_, ?_, ?_, ?_, ?_, ?_, ?_, ?_, ?_, ?_, ?_, ?_, ?_, ?_, rfl⟩ <;>
    simp [Sigmoid.callArr, Sigmoid.gradientArr, Softmax.call, Softmax.gradient,
      TanH.callArr, TanH.gradientArr, ReLU.callArr, ReLU.gradientArr,
      LeakyReLU.callArr, LeakyReLU.gradientArr, ELU.callArr, ELU.gradientArr,
      SELU.callArr, SELU.gradientArr, SoftPlus.callArr]

/-- Claim C9: for a non-empty two-dimensional input whose rows all have
length `m`, `Softmax.call2d` normalizes along axis 0: every in-bounds
column of the output sums to `1`. -/
theorem softmax2d_columns_sum_one (xss : List (List ℝ)) (m j : ℕ)
    (hne : xss ≠ []) (hrows : ∀ r ∈ xss, r.length = m) (hj : j < m) :
    ((Softmax.call2d xss).map (fun row => row.getD j 0)).sum = 1 := by
  set e : List (List ℝ) := xss.map (fun row => row.map Real.exp) with he
  have herows : ∀ r ∈ e, r.length = m := by
    intro r hr
    rw [he] at hr
    obtain ⟨row, hrow, rfl⟩ := List.mem_map.mp hr
    simpa using hrows row hrow
  have hene : e ≠ [] := by
    rw [he]
    intro hnil
    exact hne (by simpa using hnil)
  have hps := pySum_getD m j hj e hene herows
  have hcol_pos : 0 < (e.map (fun r => r.getD j 0)).sum := by
    apply List.sum_pos
    · intro a ha
      obtain ⟨r, hr, rfl⟩ := List.mem_map.mp ha
      rw [he] at hr
      obtain ⟨row, hrow, rfl⟩ := List.mem_map.mp hr
      rw [list_getD_map_of_lt Real.exp row j (by rw [hrows row hrow]; exact hj)]
      exact Real.exp_pos _
    · intro hnil
      exact hene (by simpa using hnil)
  have hs_pos : 0 < (pySum e).getD j 0 := by rw [hps.1]; exact hcol_pos
  have hstep : e.map (fun row => (List.zipWith (· / ·) row (pySum e)).getD j 0)
      = e.map (fun row => row.getD j 0 / (pySum e).getD j 0) :=
    List.map_congr_left (fun row hrow =>
      list_zipWith_getD_of_lt (· / ·) row (pySum e) j
        (by rw [herows row hrow]; exact hj) (by rw [hps.2]; exact hj))
  calc ((Softmax.call2d xss).map (fun row => row.getD j 0)).sum
      = (e.map (fun row => (List.zipWith (· / ·) row (pySum e)).getD j 0)).sum := by
        simp only [Softmax.call2d, ← he, List.map_map]
        rfl
    _ = (e.map (fun row => row.getD j 0 / (pySum e).getD j 0)).sum := by rw [hstep]
    _ = (e.map (fun row => row.getD j 0)).sum / (pySum e).getD j 0 :=
        list_sum_map_div_fn (fun row => row.getD j 0) e _
    _ = 1 := by
        rw [← hps.1]
        exact div_self (ne_of_gt hs_pos)

/-- Witness for `softmax2d_columns_sum_one` at the input `[[0, 1], [1, 0]]`
with row length `2` and column `0`. -/
theorem softmax2d_columns_sum_one_witness :
    ([[0, 1], [1, 0]] : List (List ℝ)) ≠ [] ∧
    (∀ r ∈ ([[0, 1], [1, 0]] : List (List ℝ)), r.length = 2) ∧
    (0:ℕ) < 2 ∧
    ((Softmax.call2d [[0, 1], [1, 0]]).map (fun row => row.getD 0 0)).sum = 1 := by
  have hr : ∀ r ∈ ([[0, 1], [1, 0]] : List (List ℝ)), r.length = 2 := by
    intro r hmem
    simp only [List.mem_cons, List.not_mem_nil, or_false] at hmem
    rcases hmem with rfl | rfl <;> simp
  exact ⟨by simp, hr, by norm_num,
    softmax2d_columns_sum_one _ 2 0 (by simp) hr (by norm_num)⟩
